import Mathlib

/-!
Verification of the engine-and-import subsystem of the tikv importer.

Bytes are modelled as `Nat` (each < 256 in real inputs; no arithmetic here
depends on the bound), byte strings as `List Nat`, `usize`/`u64` as `Nat`.
Each definition is a shallow embedding of the Rust function of the same name;
the source file and lines are named in its doc comment.
-/

namespace Importer

/-- Lexicographic order on byte strings, as Rust's `Ord` for `&[u8]`. -/
def ltBytes : List Nat → List Nat → Bool
  | [], [] => false
  | [], _ :: _ => true
  | _ :: _, [] => false
  | a :: as, b :: bs => if a < b then true else if b < a then false else ltBytes as bs

/-- `RANGE_MIN` from src/src/import/common.rs line 33: the empty byte string,
used as the -infinity marker. -/
def RANGE_MIN : List Nat := []

/-- `RANGE_MAX` from src/src/import/common.rs line 34: the empty byte string,
used as the +infinity marker. -/
def RANGE_MAX : List Nat := []

/-- `before_end` from src/src/import/common.rs lines 43-45:
`key < end || end == RANGE_MAX`. -/
def before_end (key e : List Nat) : Bool :=
  ltBytes key e || e == RANGE_MAX

/-- A region of the target cluster (kvproto `metapb::Region`, restricted to the
two fields these functions read; `end_key` is spelled `endKey` because `end` is
a Lean keyword).  `pd_client::RegionInfo` wraps a `Region` together with an
optional leader peer and dereferences to the `Region`; the leader plays no part
in `RangeContext`, so the wrapper is elided. -/
structure Region where
  startKey : List Nat
  endKey : List Nat
deriving DecidableEq, Repr

/-- `inside_region` from src/src/import/common.rs lines 47-49:
`key >= region.start_key && before_end(key, region.end_key)`. -/
def inside_region (key : List Nat) (region : Region) : Bool :=
  !ltBytes key region.startKey && before_end key region.endKey

/-- `RangeContext` from src/src/import/common.rs lines 74-80.  The client is
the abstract `ImportClient`; only its `get_region` capability is used here, so
it is embedded as a function from a key to a fallible region lookup (the error
payload is irrelevant and collapsed to `Unit`). -/
structure RangeContext where
  client : List Nat → Except Unit Region
  region : Option Region
  raw_size : Nat
  limit_size : Nat

/-- `RangeContext::add` from src/src/import/common.rs lines 92-94. -/
def RangeContext.add (ctx : RangeContext) (size : Nat) : RangeContext :=
  { ctx with raw_size := ctx.raw_size + size }

/-- `RangeContext::reset` from src/src/import/common.rs lines 97-112: zero the
byte counter; keep the cached region when the key is still before its end key,
otherwise refetch it from the client, caching `none` when the fetch fails. -/
def RangeContext.reset (ctx : RangeContext) (key : List Nat) : RangeContext :=
  match ctx.region with
  | some r =>
    if before_end key r.endKey then
      { ctx with raw_size := 0 }
    else
      { ctx with raw_size := 0, region := (ctx.client key).toOption }
  | none => { ctx with raw_size := 0, region := (ctx.client key).toOption }

/-- `RangeContext::should_stop_before` from src/src/import/common.rs lines
119-127. -/
def RangeContext.should_stop_before (ctx : RangeContext) (key : List Nat) : Bool :=
  if ctx.limit_size ≤ ctx.raw_size then true
  else
    match ctx.region with
    | some r => !before_end key r.endKey
    | none => false

/-- Cached region of the concrete `RangeContext` used to test claim C4. -/
def cexRegion : Region := ⟨[5], [10]⟩

/-- Region returned by the mock client of the concrete context for claim C4. -/
def cexFetched : Region := ⟨[0], [5]⟩

/-- A concrete `RangeContext` whose cached region is `[5, 10)` and whose client
always answers with the region `[0, 5)`. -/
def cexCtx : RangeContext :=
  ⟨fun _ => Except.ok cexFetched, some cexRegion, 7, 8⟩

/-- `Config` from src/src/import/config.rs lines 44-55.  `ReadableDuration` and
`ReadableSize` are embedded by their inner numeric value (`.0`), which is all
`validate` reads; `min_available_ratio` is an `f64` used only in an exact
comparison against `0.0`, embedded as `ℚ` (faithful for every non-NaN value). -/
structure Config where
  import_dir : String
  num_threads : Nat
  num_import_jobs : Nat
  num_import_sst_jobs : Nat
  max_prepare_duration : Nat
  region_split_size : Nat
  stream_channel_window : Nat
  max_open_engines : Nat
  upload_speed_limit : Nat
  min_available_ratio : ℚ

/-- `Default for Config` from src/src/import/config.rs lines 57-72 (the
duration in seconds, the sizes in bytes). -/
def Config.default : Config :=
  { import_dir := "/tmp/tikv/import"
    num_threads := 16
    num_import_jobs := 24
    num_import_sst_jobs := 2
    max_prepare_duration := 5 * 60
    region_split_size := 512 * 1024 * 1024
    stream_channel_window := 128
    max_open_engines := 8
    upload_speed_limit := 512 * 1024 * 1024
    min_available_ratio := 0.05 }

/-- `Config::validate` from src/src/import/config.rs lines 75-101. -/
def Config.validate (c : Config) : Except String Unit :=
  if c.num_threads = 0 then
    Except.error "import.num_threads can not be 0"
  else if c.num_import_jobs = 0 then
    Except.error "import.num_import_jobs can not be 0"
  else if c.num_import_sst_jobs = 0 then
    Except.error "import.num_import_sst_jobs can not be 0"
  else if c.region_split_size = 0 then
    Except.error "import.region_split_size can not be 0"
  else if c.stream_channel_window = 0 then
    Except.error "import.stream_channel_window can not be 0"
  else if c.max_open_engines = 0 then
    Except.error "import.max_open_engines can not be 0"
  else if c.upload_speed_limit = 0 then
    Except.error "import.upload_speed_limit cannot be 0"
  else if c.min_available_ratio < 0 then
    Except.error "import.min_available_ratio can not less than 0.02"
  else
    Except.ok ()

/-- The default configuration with `max_prepare_duration` zeroed and
`min_available_ratio` raised to 2: a counterexample input for claim C5. -/
def cexConfig : Config :=
  { Config.default with max_prepare_duration := 0, min_available_ratio := 2 }

/-- `engine_traits::IndexHandle`: one entry of the size index — the bytes
covered since the previous boundary key (`size`) and the cumulative offset. -/
structure IndexHandle where
  size : Nat
  offset : Nat
deriving DecidableEq, Repr

/-- `engine_rocks::SizeProperties`: the total size plus the ordered boundary
map.  `index_handles` is an ordered map iterated in ascending key order; it is
embedded as the list of (boundary key, handle) pairs in iteration order. -/
structure SizeProperties where
  total_size : Nat
  index_handles : List (List Nat × IndexHandle)
deriving DecidableEq, Repr

/-- `kvproto::import_sstpb::Range` (start and end byte strings; the proto
field `end` is spelled `endKey` because `end` is a Lean keyword). -/
structure KeyRange where
  start : List Nat
  endKey : List Nat
deriving DecidableEq, Repr

/-- `RangeInfo` from src/src/import/common.rs lines 51-64: a range plus its
reported size; `RangeInfo::new(start, end, size)` builds it field by field. -/
structure RangeInfo where
  range : KeyRange
  size : Nat
deriving DecidableEq, Repr

/-- The loop body of `get_approximate_ranges` from src/src/import/engine.rs
lines 340-358, written as structural recursion over the remaining index
handles: `start` and `size` are the loop-carried variables, and
`rest = []` is the source's `i == props.index_handles.len() - 1`. -/
def garLoop (range_size : Nat) : List Nat → Nat → List (List Nat × IndexHandle) →
    List RangeInfo
  | _, _, [] => []
  | start, size, (k, v) :: rest =>
    let size := size + v.size
    let e := if rest = [] then RANGE_MAX else k
    if range_size ≤ size ∨ rest = [] then
      ⟨⟨start, e⟩, size⟩ :: garLoop range_size e 0 rest
    else
      garLoop range_size start size rest

/-- `get_approximate_ranges` from src/src/import/engine.rs lines 332-361, for
`max_ranges ≥ 1` (its first line divides by `max_ranges`; the `max_ranges = 0`
behaviour is captured by `get_approximate_ranges_checked`). -/
def get_approximate_ranges (props : SizeProperties) (max_ranges min_range_size : Nat) :
    List RangeInfo :=
  let range_size := (props.total_size + max_ranges - 1) / max_ranges
  let range_size := max range_size min_range_size
  garLoop range_size RANGE_MIN 0 props.index_handles

/-- Rust integer division with the panic made explicit: `a / b` panics when
`b = 0` (in every build mode).  The surrounding `a + b - 1` is wrapping
arithmetic in release builds and cannot abort there; values stay far below
2^64 in real inputs, so `Nat` agrees with `usize`. -/
def checkedDiv (a b : Nat) : Option Nat :=
  if b = 0 then none else some (a / b)

/-- `get_approximate_ranges` with the division-by-zero hazard of its first
statement (src/src/import/engine.rs line 337) made explicit: `none` is the
panic. -/
def get_approximate_ranges_checked (props : SizeProperties)
    (max_ranges min_range_size : Nat) : Option (List RangeInfo) :=
  (checkedDiv (props.total_size + max_ranges - 1) max_ranges).map fun range_size =>
    garLoop (max range_size min_range_size) RANGE_MIN 0 props.index_handles

/-- Sum of the reported sizes of a list of ranges. -/
def sizesSum (l : List RangeInfo) : Nat :=
  (l.map fun r => r.size).sum

/-- Sum of the sizes of a list of index handles. -/
def handlesSum (hs : List (List Nat × IndexHandle)) : Nat :=
  (hs.map fun kv => kv.2.size).sum

/-- The ranges `l` are contiguous, start at `s`, and end at `RANGE_MAX`:
each range starts where the previous one ended. -/
def rangesChainFrom (s : List Nat) : List RangeInfo → Prop
  | [] => s = RANGE_MAX
  | r :: rest => r.range.start = s ∧ rangesChainFrom r.range.endKey rest

/-- A concrete `SizeProperties` for claim C1's counterexample: consistent
(`total_size` = 1 + 1 + 0) but with a final zero-size handle. -/
def cexProps : SizeProperties :=
  ⟨2, [([1], ⟨1, 1⟩), ([2], ⟨1, 2⟩), ([3], ⟨0, 2⟩)]⟩

/-- A small well-formed `SizeProperties` (the shape an engine emits): positive
handle sizes summing to `total_size`.  Used to witness claims C1 and C10. -/
def exProps : SizeProperties :=
  ⟨7, [([2], ⟨3, 3⟩), ([5], ⟨4, 7⟩)]⟩

/-- Big-endian bytes of `n`, `w` bytes wide (the store's `u64` encoding). -/
def beBytes : Nat → Nat → List Nat
  | 0, _ => []
  | w + 1, n => beBytes w (n / 256) ++ [n % 256]

/-- A big-endian byte string read back as a number. -/
def bytesToU64BE (bs : List Nat) : Nat :=
  bs.foldl (fun acc b => acc * 256 + b % 256) 0

/-- `txn_types` memcomparable key encoding (`Key::from_raw`): the key in
groups of 8 bytes, each full group followed by the marker 0xFF, the final
(possibly empty) group zero-padded to 8 bytes with marker 0xFF minus the
padding length. -/
def encode_bytes (k : List Nat) : List Nat :=
  if h : k.length < 8 then
    k ++ List.replicate (8 - k.length) 0 ++ [255 - (8 - k.length)]
  else
    k.take 8 ++ 255 :: encode_bytes (k.drop 8)
termination_by k.length
decreasing_by simp [List.length_drop]; omega

/-- `encode_u64_desc`: a timestamp appended to a key is stored bit-inverted
(`!ts`) in big-endian form, so byte order sorts timestamps descending. -/
def encode_u64_desc (ts : Nat) : List Nat :=
  beBytes 8 (2 ^ 64 - 1 - ts % 2 ^ 64)

/-- `Key::from_raw(key).append_ts(ts)` from `txn_types`: the memcomparable
encoding of the raw key followed by the descending-encoded timestamp.  Used in
`Engine::write` and `Engine::write_v3` (src/src/import/engine.rs lines 75 and
93). -/
def append_ts (key : List Nat) (ts : Nat) : List Nat :=
  encode_bytes key ++ encode_u64_desc ts

/-- `Key::split_on_ts_for` from `txn_types`, used by `SSTWriter::put`
(src/src/import/engine.rs line 292): fails on keys shorter than 8 bytes,
otherwise splits off the final 8 bytes and decodes them as the
descending-encoded commit timestamp. -/
def split_on_ts_for (key : List Nat) : Option (List Nat × Nat) :=
  if key.length < 8 then none
  else some (key.take (key.length - 8),
    2 ^ 64 - 1 - bytesToU64BE (key.drop (key.length - 8)))

/-- `keys::data_key`: TiKV prefixes every stored key with the data prefix
`z` (byte 122). -/
def data_key (key : List Nat) : List Nat :=
  122 :: key

/-- `txn_types::SHORT_VALUE_MAX_LEN`: the cluster's short-value threshold. -/
def SHORT_VALUE_MAX_LEN : Nat := 255

/-- `txn_types::is_short_value`: `value.len() <= SHORT_VALUE_MAX_LEN`. -/
def is_short_value (value : List Nat) : Bool :=
  value.length ≤ SHORT_VALUE_MAX_LEN

/-- `txn_types::WriteType` (the write-column record kind). -/
inductive WriteType where
  | Put
  | Delete
  | Lock
  | Rollback
deriving DecidableEq, Repr

/-- A `txn_types::Write` record as built by `Write::new(write_type, commit_ts,
short_value)`.  The source serialises it with `to_bytes` (an injective
external encoding); the record is kept structured here, which is what the
builder contents are compared on. -/
structure WriteRecord where
  write_type : WriteType
  commit_ts : Nat
  short_value : Option (List Nat)
deriving DecidableEq, Repr

/-- `SSTWriter` from src/src/import/engine.rs lines 246-254: two sorted-file
builders, one per column family, with their entry counters.  A builder is
embedded as the list of records put into it, in order (the external
`SstFileWriter` additionally enforces strictly increasing keys and writes the
file). -/
structure SSTWriter where
  default : List (List Nat × List Nat)
  default_entries : Nat
  write : List (List Nat × WriteRecord)
  write_entries : Nat
deriving DecidableEq, Repr

/-- `SSTWriter::new` (src/src/import/engine.rs lines 257-288): both builders
start empty. -/
def SSTWriter.empty : SSTWriter :=
  ⟨[], 0, [], 0⟩

/-- `SSTWriter::put` from src/src/import/engine.rs lines 290-305: prefix the
key with the data prefix, split off the commit timestamp, then route by value
size — a short value becomes one inline write-column record, a long value goes
to the default column with a pointer record (no inline value) in the write
column.  `none` is the error path of `split_on_ts_for`. -/
def SSTWriter.put (w : SSTWriter) (key value : List Nat) : Option SSTWriter :=
  match split_on_ts_for key with
  | none => none
  | some (_, commit_ts) =>
    let k := data_key key
    if is_short_value value then
      some { w with
        write := w.write ++ [(k, ⟨WriteType.Put, commit_ts, some value⟩)],
        write_entries := w.write_entries + 1 }
    else
      some { w with
        write := w.write ++ [(k, ⟨WriteType.Put, commit_ts, none⟩)],
        write_entries := w.write_entries + 1,
        default := w.default ++ [(k, value)],
        default_entries := w.default_entries + 1 }

/-- `SSTWriter::finish` from src/src/import/engine.rs lines 307-326: finalize
each builder that received at least one entry, the default column first.  The
embedding returns the finalized contents: (default segment?, write
segment?). -/
def SSTWriter.finish (w : SSTWriter) :
    Option (List (List Nat × List Nat)) × Option (List (List Nat × WriteRecord)) :=
  (if 0 < w.default_entries then some w.default else none,
   if 0 < w.write_entries then some w.write else none)

/-- `kvproto::import_kvpb::mutation::Op`: `Put` is the only operation the
message can carry (the exhaustive match in `Engine::write` has a single
arm). -/
inductive MutationOp where
  | Put
deriving DecidableEq, Repr

/-- `kvproto::import_kvpb::Mutation`. -/
structure Mutation where
  op : MutationOp
  key : List Nat
  value : List Nat
deriving DecidableEq, Repr

/-- `kvproto::import_kvpb::WriteBatch`. -/
structure WriteBatch where
  commit_ts : Nat
  mutations : List Mutation
deriving DecidableEq, Repr

/-- `kvproto::import_kvpb::KvPair`. -/
structure KvPair where
  key : List Nat
  value : List Nat
deriving DecidableEq, Repr

/-- Length of a protobuf-style varint32, as used in the RocksDB write-batch
record format. -/
def varint32_len (n : Nat) : Nat :=
  if n < 128 then 1
  else if n < 16384 then 2
  else if n < 2097152 then 3
  else if n < 268435456 then 4
  else 5

/-- `rocksdb::WriteBatch::data_size` over the staged records: the serialized
representation is a 12-byte header (8-byte sequence number, 4-byte count)
followed, for each `put`, by a 1-byte tag and the varint32-length-prefixed key
and value.  Modelled from the library's stable batch layout. -/
def raw_batch_data_size (wb : List (List Nat × List Nat)) : Nat :=
  12 + (wb.map fun e =>
    1 + varint32_len e.1.length + e.1.length + varint32_len e.2.length + e.2.length).sum

/-- `Engine::write` from src/src/import/engine.rs lines 67-85: stage, for each
mutation (all of which are `Put`), the MVCC-encoded key with the batch's
commit timestamp appended, mapped to the mutation's value; return the staged
batch (the engine's new contents, written WAL-less) together with the
returned byte count `wb.data_size()`. -/
def Engine.write (batch : WriteBatch) : List (List Nat × List Nat) × Nat :=
  let wb := batch.mutations.foldl
    (fun wb m =>
      match m.op with
      | MutationOp.Put => wb ++ [(append_ts m.key batch.commit_ts, m.value)])
    []
  (wb, raw_batch_data_size wb)

/-- `Engine::write_v3` from src/src/import/engine.rs lines 87-101: the unary
variant — same staging over `(commit_ts, pairs)` without the mutation
wrapper. -/
def Engine.write_v3 (commit_ts : Nat) (pairs : List KvPair) :
    List (List Nat × List Nat) × Nat :=
  let wb := pairs.foldl
    (fun wb p => wb ++ [(append_ts p.key commit_ts, p.value)])
    []
  (wb, raw_batch_data_size wb)

/-- A well-formed 9-byte MVCC key for the claim C2 witness: user part `[1]`,
timestamp bytes all 0xFF (the descending encoding of timestamp 0). -/
def exKey : List Nat :=
  [1, 255, 255, 255, 255, 255, 255, 255, 255]

/-- `kvproto::import_sstpb::SstMeta`: the segment metadata carried by the
first upload frame (uuid, crc32, length, column-family name, range, region id
and epoch). -/
structure SstMeta where
  uuid : List Nat
  range : KeyRange
  crc32 : Nat
  length : Nat
  cf_name : String
  region_id : Nat
  region_epoch : Nat × Nat
deriving DecidableEq, Repr

/-- One `UploadRequest` frame: either the metadata or a chunk of bytes (the
proto's oneof). -/
inductive UploadFrame where
  | metaFrame (m : SstMeta)
  | dataFrame (bytes : List Nat)
deriving DecidableEq, Repr

/-- `UPLOAD_CHUNK_SIZE` from src/src/import/client.rs line 307: 1 MiB. -/
def UPLOAD_CHUNK_SIZE : Nat := 1024 * 1024

/-- `UploadStream` from src/src/import/client.rs lines 294-306: the iterator
state — the not-yet-emitted metadata and the remaining bytes of the data
source. -/
structure UploadStream where
  meta : Option SstMeta
  data : List Nat
deriving DecidableEq, Repr

/-- `Iterator::next for UploadStream` from src/src/import/client.rs lines
310-338: emit the meta frame first; afterwards read up to 1 MiB from the
source, stopping when it is exhausted.  (The read-error path of the reader is
outside this pure model; a `List` source never fails.) -/
def UploadStream.next (s : UploadStream) : Option (UploadFrame × UploadStream) :=
  match s.meta with
  | some m => some (UploadFrame.metaFrame m, { s with meta := none })
  | none =>
    let buf := s.data.take UPLOAD_CHUNK_SIZE
    if buf.isEmpty then none
    else some (UploadFrame.dataFrame buf, { s with data := s.data.drop UPLOAD_CHUNK_SIZE })

/-- The full sequence of frames produced by iterating `UploadStream.next`
until it yields `none` (`frames_eq_next` below proves this is exactly that
iteration). -/
def UploadStream.frames (s : UploadStream) : List UploadFrame :=
  match hm : s.meta with
  | some m => UploadFrame.metaFrame m :: UploadStream.frames ⟨none, s.data⟩
  | none =>
    if h : s.data = [] then []
    else
      UploadFrame.dataFrame (s.data.take UPLOAD_CHUNK_SIZE) ::
        UploadStream.frames ⟨none, s.data.drop UPLOAD_CHUNK_SIZE⟩
termination_by (if s.meta.isSome then 1 else 0) + s.data.length
decreasing_by
  · simp [hm]
  · simp only [hm, Option.isSome_none, Bool.false_eq_true, if_false, List.length_drop]
    have : s.data.length ≠ 0 := by simpa using h
    simp [UPLOAD_CHUNK_SIZE]
    omega

/-- The data frames' payloads, described directly: the source split into
successive 1 MiB chunks (the last one possibly shorter). -/
def chunksOf (d : List Nat) : List (List Nat) :=
  if h : d = [] then []
  else d.take UPLOAD_CHUNK_SIZE :: chunksOf (d.drop UPLOAD_CHUNK_SIZE)
termination_by d.length
decreasing_by
  simp only [List.length_drop]
  have : d.length ≠ 0 := by simpa using h
  simp [UPLOAD_CHUNK_SIZE]
  omega

/-- `Error` from src/src/import/errors.rs lines 17-69.  Payloads are
simplified to the comparison-relevant data: uuids to a number, wrapped foreign
errors and messages to a string. -/
inductive Error where
  | Io (msg : String)
  | Grpc (msg : String)
  | Uuid (msg : String)
  | Codec (msg : String)
  | RocksDB (msg : String)
  | Engine (msg : String)
  | ParseIntError (msg : String)
  | FileExists (path : String)
  | FileNotExists (path : String)
  | FileCorrupted (path : String) (reason : String)
  | InvalidSSTPath (path : String)
  | EngineInUse (uuid : Nat)
  | EngineNotFound (uuid : Nat)
  | InvalidProtoMessage (msg : String)
  | InvalidChunk
  | PdRPC (msg : String)
  | TikvRPC (msg : String)
  | NotLeader (leader : Option Nat)
  | EpochNotMatch (regions : List Region)
  | UpdateRegion (region : Region)
  | ImportJobFailed (msg : String)
  | ImportSSTJobFailed (msg : String)
  | PrepareRangeJobFailed (msg : String)
  | ResourceTemporarilyUnavailable (msg : String)
  | Security (msg : String)
deriving DecidableEq, Repr

/-- How one RPC concludes for the client: a normal response (whose typed
`engine_not_found` error field may name a missing engine — the only typed
error the `import_kvpb` responses can carry), or a transport-level failure. -/
inductive RpcOutcome where
  | success (engine_not_found : Option Nat)
  | transport (e : Error)
deriving DecidableEq, Repr

/-- Whether the client received a response at all (typed error included). -/
def RpcOutcome.isSuccess : RpcOutcome → Bool
  | RpcOutcome.success _ => true
  | RpcOutcome.transport _ => false

/-- How the three handlers that route the importer result through the
`try_engine!` macro — `write_engine` (src/src/import/kv_service.rs line 159),
`write_engine_v3` (line 196) and `close_engine` (line 226) — conclude a
request.  The macro (lines 44-57) intercepts exactly `Error::EngineNotFound`,
returning a success response whose typed error field carries the uuid; every
other error is re-raised with `?`.  Modelled from the spec:
`send_rpc_response!` lives in service.rs, which is not under src/ — per the
spec, a handler's `Err` is sent as a transport-level failure and its `Ok` as
the response. -/
def handle_engine_result (res : Except Error Unit) : RpcOutcome :=
  match res with
  | Except.error (Error.EngineNotFound v) => RpcOutcome.success (some v)
  | Except.error e => RpcOutcome.transport e
  | Except.ok _ => RpcOutcome.success none

/-- How the handlers that do NOT use `try_engine!` — `import_engine`
(src/src/import/kv_service.rs line 250) and `cleanup_engine` (line 274) —
conclude a request: the importer result is propagated unchanged with `?`, so
every error, `EngineNotFound` included, reaches `send_rpc_response!` as an
`Err`.  Modelled from the spec as above: an `Err` is sent as a
transport-level failure, an `Ok` as the response. -/
def handle_plain_result (res : Except Error Unit) : RpcOutcome :=
  match res with
  | Except.error e => RpcOutcome.transport e
  | Except.ok _ => RpcOutcome.success none

end Importer

namespace Importer

/-- Claim C3: `should_stop_before(k)` is true iff the accumulated size reached
the limit, or a region is cached and `k` is at or past its end key with that
end key not the empty (infinite) key.  (The size-unreached, region-unset case
is the instance where both disjuncts fail.) -/
theorem range_context_should_stop_before_spec (ctx : RangeContext) (key : List Nat) :
    ctx.should_stop_before key = true ↔
      (ctx.limit_size ≤ ctx.raw_size ∨
        ∃ r, ctx.region = some r ∧ ltBytes key r.endKey = false ∧ r.endKey ≠ []) := by
  unfold RangeContext.should_stop_before
  by_cases hsize : ctx.limit_size ≤ ctx.raw_size
  · simp [hsize]
  · simp only [if_neg hsize]
    cases hr : ctx.region with
    | none => simp [hsize]
    | some r =>
      simp only [Bool.not_eq_true', before_end, RANGE_MAX]
      constructor
      · intro h
        rcases Bool.or_eq_false_iff.mp h with ⟨h1, h2⟩
        exact Or.inr ⟨r, rfl, h1, by simpa using h2⟩
      · rintro (h | ⟨r', hr', h1, h2⟩)
        · exact absurd h hsize
        · cases hr'
          exact Bool.or_eq_false_iff.mpr ⟨h1, by simpa using h2⟩

/-- Claim C4, counterexample to the claim as stated: with cached region
`[5, 10)` and key `[3]`, the cached region does not cover the key, yet `reset`
does not fetch from the client (which would have produced `[0, 5)`); it keeps
the stale cached region, because the code only compares the key against the
region's end key. -/
theorem range_context_reset_claim_cex :
    inside_region [3] cexRegion = false ∧
      cexCtx.region = some cexRegion ∧
      (cexCtx.reset [3]).region = some cexRegion ∧
      (cexCtx.client [3]).toOption = some cexFetched ∧
      cexRegion ≠ cexFetched := by
  refine ⟨by decide, rfl, ?_, rfl, by decide⟩
  decide

/-- Claim C4 as amended: `reset(k)` always zeroes `raw_size` and leaves the
client and limit alone; it keeps the cached region unchanged when `k` is
before the cached region's end key (in particular whenever the region covers
`k`), and otherwise — cached region unset, or `k` at or past its end key —
caches the client's answer, which is `none` exactly when the fetch fails. -/
theorem range_context_reset_spec (ctx : RangeContext) (key : List Nat) :
    (ctx.reset key).raw_size = 0 ∧
      (ctx.reset key).limit_size = ctx.limit_size ∧
      (ctx.reset key).client = ctx.client ∧
      (∀ r, ctx.region = some r → before_end key r.endKey = true →
        (ctx.reset key).region = ctx.region) ∧
      ((∀ r, ctx.region = some r → before_end key r.endKey = false) →
        (ctx.reset key).region = (ctx.client key).toOption) := by
  unfold RangeContext.reset
  cases hr : ctx.region with
  | none =>
    refine ⟨rfl, rfl, rfl, ?_, ?_⟩
    · intro r h
      cases h
    · intro _
      rfl
  | some r =>
    by_cases hb : before_end key r.endKey
    · refine ⟨by simp [hb], by simp [hb], by simp [hb], fun r' h _ => ?_, fun h => ?_⟩
      · cases h; simp [hb]
      · have := h r rfl
        rw [hb] at this
        cases this
    · have hb' : before_end key r.endKey = false := by simpa using hb
      refine ⟨by simp [hb'], by simp [hb'], by simp [hb'], fun r' h hbe => ?_, fun _ => ?_⟩
      · cases h; rw [hb'] at hbe; cases hbe
      · simp [hb']

/-- Claim C4 witness: the amended theorem applied at the concrete context, on
both the still-inside branch (key `[6]`, before end key `[10]`) and the
refetch branch (no cached region, key `[3]`). -/
theorem range_context_reset_spec_witness :
    (cexCtx.reset [6]).region = cexCtx.region ∧
      (({ cexCtx with region := none } : RangeContext).reset [3]).region = some cexFetched := by
  constructor
  · exact (range_context_reset_spec cexCtx [6]).2.2.2.1 cexRegion rfl (by decide)
  · have h := (range_context_reset_spec { cexCtx with region := none } [3]).2.2.2.2
      (fun r hr => by cases hr)
    exact h.trans rfl

/-- Claim C5, counterexample to the claim as stated: `validate` accepts the
configuration whose `max_prepare_duration` is 0 and whose
`min_available_ratio` is 2, although the claim demands `Err` for any
configuration with a non-positive numeric or a ratio outside [0, 1). -/
theorem config_validate_claim_cex :
    cexConfig.validate = Except.ok () ∧
      cexConfig.max_prepare_duration = 0 ∧
      (1 : ℚ) ≤ cexConfig.min_available_ratio := by
  refine ⟨?_, rfl, by norm_num [cexConfig, Config.default]⟩
  rfl

/-- Claim C5 as amended: `validate` returns `Ok` iff the seven numeric values
it actually checks (`num_threads`, `num_import_jobs`, `num_import_sst_jobs`,
`region_split_size`, `stream_channel_window`, `max_open_engines`,
`upload_speed_limit`) are all positive and `min_available_ratio` is ≥ 0;
`max_prepare_duration` is never examined and no upper bound is placed on the
ratio. -/
theorem config_validate_spec (c : Config) :
    c.validate = Except.ok () ↔
      (0 < c.num_threads ∧ 0 < c.num_import_jobs ∧ 0 < c.num_import_sst_jobs ∧
        0 < c.region_split_size ∧ 0 < c.stream_channel_window ∧
        0 < c.max_open_engines ∧ 0 < c.upload_speed_limit ∧
        0 ≤ c.min_available_ratio) := by
  unfold Config.validate
  split_ifs with h1 h2 h3 h4 h5 h6 h7 h8 <;>
    simp_all [Nat.pos_iff_ne_zero, not_lt]

theorem sizesSum_append (l₁ l₂ : List RangeInfo) :
    sizesSum (l₁ ++ l₂) = sizesSum l₁ + sizesSum l₂ := by
  simp [sizesSum]

theorem length_mul_le_sizesSum (c : Nat) :
    ∀ l : List RangeInfo, (∀ r ∈ l, c ≤ r.size) → l.length * c ≤ sizesSum l := by
  intro l
  induction l with
  | nil => intro _; simp [sizesSum]
  | cons r rest ih =>
    intro h
    have h1 := h r (by simp)
    have h2 := ih fun x hx => h x (by simp [hx])
    have : (r :: rest).length * c = rest.length * c + c := by
      simp [List.length_cons]; ring
    rw [this]
    have : sizesSum (r :: rest) = r.size + sizesSum rest := by
      simp [sizesSum]
    rw [this]
    omega

/-- Structure of the output of the `get_approximate_ranges` loop on a
non-empty handle list: it ends with one final range; all earlier ranges were
cut with at least `rsz` accumulated bytes; the range sizes sum to the carried
size plus all handle sizes; the ranges chain from `s` to `RANGE_MAX`; and the
final range absorbs at least one handle's size (the last one's). -/
theorem garLoop_decomp (rsz : Nat) :
    ∀ (hs : List (List Nat × IndexHandle)) (s : List Nat) (sz : Nat), hs ≠ [] →
      ∃ init lastR, garLoop rsz s sz hs = init ++ [lastR] ∧
        (∀ r ∈ init, rsz ≤ r.size) ∧
        sizesSum (init ++ [lastR]) = sz + handlesSum hs ∧
        rangesChainFrom s (init ++ [lastR]) ∧
        ∃ kv ∈ hs, kv.2.size ≤ lastR.size := by
  intro hs
  induction hs with
  | nil => intro s sz h; exact absurd rfl h
  | cons kv rest ih =>
    intro s sz _
    obtain ⟨k, v⟩ := kv
    cases rest with
    | nil =>
      refine ⟨[], ⟨⟨s, RANGE_MAX⟩, sz + v.size⟩, ?_, by simp, ?_, ?_, ?_⟩
      · simp [garLoop]
      · simp [sizesSum, handlesSum]
      · exact ⟨rfl, rfl⟩
      · exact ⟨(k, v), by simp, by simp⟩
    | cons kv2 rest2 =>
      have hg : garLoop rsz s sz ((k, v) :: kv2 :: rest2) =
          if rsz ≤ sz + v.size ∨ (kv2 :: rest2 : List (List Nat × IndexHandle)) = [] then
            ⟨⟨s, k⟩, sz + v.size⟩ :: garLoop rsz k 0 (kv2 :: rest2)
          else
            garLoop rsz s (sz + v.size) (kv2 :: rest2) := by
        simp only [garLoop]
        simp
      by_cases hcut : rsz ≤ sz + v.size
      · obtain ⟨init', last', heq, hinit, hsum, hchain, kv', hkv', hle⟩ :=
          ih k 0 (by simp)
        refine ⟨⟨⟨s, k⟩, sz + v.size⟩ :: init', last', ?_, ?_, ?_, ?_, ?_⟩
        · rw [hg, if_pos (Or.inl hcut), heq, List.cons_append]
        · intro r hr
          rcases List.mem_cons.mp hr with h | h
          · subst h; exact hcut
          · exact hinit r h
        · rw [List.cons_append, sizesSum, List.map_cons, List.sum_cons]
          have : (List.map (fun r => r.size) (init' ++ [last'])).sum =
              sizesSum (init' ++ [last']) := rfl
          rw [this, hsum]
          simp [handlesSum]
          ring
        · exact ⟨rfl, hchain⟩
        · exact ⟨kv', List.mem_cons_of_mem _ hkv', hle⟩
      · obtain ⟨init', last', heq, hinit, hsum, hchain, kv', hkv', hle⟩ :=
          ih s (sz + v.size) (by simp)
        refine ⟨init', last', ?_, hinit, ?_, hchain, ?_⟩
        · rw [hg, if_neg (by simp [hcut]), heq]
        · rw [hsum]
          simp [handlesSum]
          ring
        · exact ⟨kv', List.mem_cons_of_mem _ hkv', hle⟩

/-- Claim C1, counterexample to the claim as stated: `cexProps` has three
index handles (sizes 1, 1, 0) consistent with its `total_size` of 2, yet
`get_approximate_ranges(cexProps, 2, 0)` returns three ranges, more than
`max_ranges = 2` — the final zero-size handle yields an extra range. -/
theorem get_approximate_ranges_claim_cex :
    cexProps.total_size = handlesSum cexProps.index_handles ∧
      2 < (get_approximate_ranges cexProps 2 0).length := by
  exact ⟨by decide, by decide⟩

/-- Claim C1 as amended: for well-formed size properties — at least one index
handle, every handle size positive, and `total_size` equal to the sum of the
handle sizes (the shape the engine's property collector emits) — and any
`max_ranges N ≥ 1` and `min_range_size M, `get_approximate_ranges` returns at
most `N` ranges, the ranges are non-empty, contiguous and cover
`[RANGE_MIN, RANGE_MAX)`, and every range except the last reports a size of at
least `M`. -/
theorem get_approximate_ranges_spec (props : SizeProperties) (N M : Nat)
    (hne : props.index_handles ≠ []) (hN : 1 ≤ N)
    (hsum : props.total_size = handlesSum props.index_handles)
    (hpos : ∀ kv ∈ props.index_handles, 1 ≤ kv.2.size) :
    (get_approximate_ranges props N M).length ≤ N ∧
      get_approximate_ranges props N M ≠ [] ∧
      rangesChainFrom RANGE_MIN (get_approximate_ranges props N M) ∧
      ∀ r ∈ (get_approximate_ranges props N M).dropLast, M ≤ r.size := by
  have hgar : get_approximate_ranges props N M =
      garLoop (max ((props.total_size + N - 1) / N) M) RANGE_MIN 0 props.index_handles := rfl
  set T := props.total_size with hT
  set q := (T + N - 1) / N with hq
  set rsz := max q M with hrsz
  obtain ⟨init, lastR, heq, hinit, hsz, hchain, kv, hkv, hkvle⟩ :=
    garLoop_decomp rsz props.index_handles RANGE_MIN 0 hne
  rw [hgar, heq]
  have hlast1 : 1 ≤ lastR.size := le_trans (hpos kv hkv) hkvle
  have hT1 : 1 ≤ T := by
    have hmem : kv.2.size ∈ List.map (fun x => x.2.size) props.index_handles :=
      List.mem_map_of_mem _ hkv
    have := List.single_le_sum (fun (x : Nat) _ => Nat.zero_le x) _ hmem
    have hk1 := hpos kv hkv
    rw [hsum]
    unfold handlesSum
    omega
  have hq1 : 1 ≤ q := by
    rw [hq, Nat.one_le_div_iff (by omega)]
    omega
  have hrsz1 : 1 ≤ rsz := le_trans hq1 (le_max_left _ _)
  have hTle : T ≤ N * rsz := by
    have h1 : T ≤ N * q := by
      have hmod := Nat.div_add_mod (T + N - 1) N
      have hmlt : (T + N - 1) % N < N := Nat.mod_lt _ (by omega)
      rw [hq]
      omega
    calc T ≤ N * q := h1
      _ ≤ N * rsz := Nat.mul_le_mul_left N (le_max_left q M)
  have hsuminit : sizesSum init + lastR.size = T := by
    rw [sizesSum_append] at hsz
    have hone : sizesSum [lastR] = lastR.size := by simp [sizesSum]
    rw [hone] at hsz
    rw [hsum]
    omega
  have hcount : init.length * rsz ≤ T - 1 := by
    have := length_mul_le_sizesSum rsz init hinit
    omega
  have hlen : init.length < N := by
    have h1 : init.length * rsz < N * rsz := by omega
    exact lt_of_mul_lt_mul_right h1 (Nat.zero_le rsz)
  refine ⟨?_, by simp, hchain, ?_⟩
  · rw [List.length_append, List.length_singleton]
    omega
  · intro r hr
    rw [List.dropLast_concat] at hr
    exact le_trans (le_max_right q M) (hinit r hr)

/-- Claim C1 witness: the amended theorem applied to the concrete well-formed
`exProps` (two handles of sizes 3 and 4, `total_size` 7) with `max_ranges = 2`
and `min_range_size = 3`. -/
theorem get_approximate_ranges_spec_witness :
    (get_approximate_ranges exProps 2 3).length ≤ 2 ∧
      get_approximate_ranges exProps 2 3 ≠ [] ∧
      rangesChainFrom RANGE_MIN (get_approximate_ranges exProps 2 3) ∧
      ∀ r ∈ (get_approximate_ranges exProps 2 3).dropLast, 3 ≤ r.size :=
  get_approximate_ranges_spec exProps 2 3 (by decide) (by decide) (by decide) (by decide)

/-- Claim C10: the division `(total_size + max_ranges - 1) / max_ranges` in
the first statement of `get_approximate_ranges` is a division by zero — a
panic — when `max_ranges = 0`, for every `props` and `min_range_size`; and for
`max_ranges ≥ 1` the computation cannot abort (release-mode wrapping
arithmetic has no other panic site, and the function does no indexing), so it
produces the ranges. -/
theorem get_approximate_ranges_div_by_zero :
    (∀ (props : SizeProperties) (M : Nat),
        get_approximate_ranges_checked props 0 M = none) ∧
      ∀ (props : SizeProperties) (N M : Nat), N ≠ 0 →
        get_approximate_ranges_checked props N M =
          some (get_approximate_ranges props N M) := by
  constructor
  · intro props M
    rfl
  · intro props N M hN
    unfold get_approximate_ranges_checked checkedDiv
    rw [if_neg hN]
    rfl

/-- Claim C10 witness: at `max_ranges = 1` the checked computation succeeds
and agrees with the plain function on the concrete `exProps`. -/
theorem get_approximate_ranges_div_by_zero_witness :
    get_approximate_ranges_checked exProps 1 0 =
      some (get_approximate_ranges exProps 1 0) :=
  get_approximate_ranges_div_by_zero.2 exProps 1 0 (by decide)

/-- Claim C2: `SSTWriter::put(k, v)` with a well-formed key adds, for a short
value (`|v| ≤ short_value_threshold`), exactly one record — an inline
write-column record carrying (Put, commit timestamp from `k`, `v`) — leaving
the default builder untouched; for a long value it adds exactly two records,
`(k, v)` to the default builder and a pointer record (Put, commit timestamp,
no value) to the write builder.  Consequently, after `finish()` on a writer
that received a single `put`, a long value yields exactly one default record
and one write record, and a short value yields a record only in the write
segment. -/
theorem sst_writer_put_spec (w : SSTWriter) (key value u : List Nat) (ts : Nat)
    (hk : split_on_ts_for key = some (u, ts)) :
    (value.length ≤ SHORT_VALUE_MAX_LEN →
      w.put key value = some { w with
        write := w.write ++ [(data_key key, ⟨WriteType.Put, ts, some value⟩)],
        write_entries := w.write_entries + 1 }) ∧
    (SHORT_VALUE_MAX_LEN < value.length →
      w.put key value = some { w with
        default := w.default ++ [(data_key key, value)],
        default_entries := w.default_entries + 1,
        write := w.write ++ [(data_key key, ⟨WriteType.Put, ts, none⟩)],
        write_entries := w.write_entries + 1 }) ∧
    ∀ w', SSTWriter.empty.put key value = some w' →
      (value.length ≤ SHORT_VALUE_MAX_LEN →
        w'.finish = (none, some [(data_key key, ⟨WriteType.Put, ts, some value⟩)])) ∧
      (SHORT_VALUE_MAX_LEN < value.length →
        w'.finish = (some [(data_key key, value)],
          some [(data_key key, ⟨WriteType.Put, ts, none⟩)])) := by
  by_cases hv : value.length ≤ SHORT_VALUE_MAX_LEN
  · have hb : is_short_value value = true := by
      simp [is_short_value]
      omega
    have hput : ∀ w0 : SSTWriter, w0.put key value = some { w0 with
        write := w0.write ++ [(data_key key, ⟨WriteType.Put, ts, some value⟩)],
        write_entries := w0.write_entries + 1 } := by
      intro w0
      unfold SSTWriter.put
      rw [hk, hb]
      rfl
    refine ⟨fun _ => hput w, fun h => absurd hv (by omega), fun w' hw' => ?_⟩
    rw [hput SSTWriter.empty] at hw'
    cases hw'
    exact ⟨fun _ => rfl, fun h => absurd hv (by omega)⟩
  · have hb : is_short_value value = false := by
      simp [is_short_value]
      omega
    have hput : ∀ w0 : SSTWriter, w0.put key value = some { w0 with
        default := w0.default ++ [(data_key key, value)],
        default_entries := w0.default_entries + 1,
        write := w0.write ++ [(data_key key, ⟨WriteType.Put, ts, none⟩)],
        write_entries := w0.write_entries + 1 } := by
      intro w0
      unfold SSTWriter.put
      rw [hk, hb]
      rfl
    refine ⟨fun h => absurd h hv, fun _ => hput w, fun w' hw' => ?_⟩
    rw [hput SSTWriter.empty] at hw'
    cases hw'
    exact ⟨fun h => absurd h hv, fun _ => rfl⟩

/-- Claim C2 witness: the theorem applied to a fresh writer, the concrete
9-byte key `exKey` (commit timestamp 0) and the short value `[7]`. -/
theorem sst_writer_put_spec_witness :
    SSTWriter.empty.put exKey [7] = some { SSTWriter.empty with
      write := [(data_key exKey, ⟨WriteType.Put, 0, some [7]⟩)],
      write_entries := 1 } :=
  (sst_writer_put_spec SSTWriter.empty exKey [7] [1] 0 (by decide)).1 (by decide)

theorem foldl_put_eq_map (ts : Nat) (ms : List Mutation) :
    ∀ acc, ms.foldl
        (fun wb m =>
          match m.op with
          | MutationOp.Put => wb ++ [(append_ts m.key ts, m.value)])
        acc =
      acc ++ ms.map (fun m => (append_ts m.key ts, m.value)) := by
  induction ms with
  | nil => intro acc; simp
  | cons m rest ih =>
    intro acc
    obtain ⟨op, k, v⟩ := m
    cases op
    simp only [List.foldl_cons, List.map_cons, ih]
    simp

theorem foldl_pair_eq_map (ts : Nat) (ps : List KvPair) :
    ∀ acc, ps.foldl (fun wb p => wb ++ [(append_ts p.key ts, p.value)]) acc =
      acc ++ ps.map (fun p => (append_ts p.key ts, p.value)) := by
  induction ps with
  | nil => intro acc; simp
  | cons p rest ih =>
    intro acc
    simp only [List.foldl_cons, List.map_cons, ih]
    simp

/-- Claim C8: `Engine::write(batch)` stages, for each mutation of the batch in
order, the value under the MVCC-encoded key `encode(key) ∥ commit_ts`
(timestamp bit-inverted, appended big-endian); the operation is always `Put`
(the mutation op enum has no other variant, so the rejection of non-Put
operations is vacuous); and the returned count is the byte size of the staged
write batch. -/
theorem engine_write_spec (batch : WriteBatch) :
    (Engine.write batch).1 =
        batch.mutations.map (fun m => (append_ts m.key batch.commit_ts, m.value)) ∧
      (∀ m ∈ batch.mutations, m.op = MutationOp.Put) ∧
      (Engine.write batch).2 = raw_batch_data_size (Engine.write batch).1 := by
  refine ⟨?_, ?_, rfl⟩
  · have h := foldl_put_eq_map batch.commit_ts batch.mutations []
    simpa using h
  · intro m _
    obtain ⟨op, k, v⟩ := m
    cases op
    rfl

/-- Claim C9: `Engine::write_v3(ts, pairs)` is `Engine::write` of the batch
with commit timestamp `ts` whose mutations are `Put(key, value)` for the same
pairs in the same order — identical staged entries and identical returned byte
count. -/
theorem engine_write_v3_refines_write (ts : Nat) (pairs : List KvPair) :
    Engine.write ⟨ts, pairs.map fun p => ⟨MutationOp.Put, p.key, p.value⟩⟩ =
      Engine.write_v3 ts pairs := by
  unfold Engine.write Engine.write_v3
  have h1 := foldl_put_eq_map ts (pairs.map fun p => ⟨MutationOp.Put, p.key, p.value⟩) []
  have h2 := foldl_pair_eq_map ts pairs []
  simp only [List.nil_append] at h1 h2
  rw [h1, h2, List.map_map]
  rfl

theorem chunksOf_nil : chunksOf [] = [] := by
  rw [chunksOf]
  simp

theorem chunksOf_cons (d : List Nat) (h : d ≠ []) :
    chunksOf d = d.take UPLOAD_CHUNK_SIZE :: chunksOf (d.drop UPLOAD_CHUNK_SIZE) := by
  rw [chunksOf]
  simp [h]

theorem frames_nil : UploadStream.frames ⟨none, []⟩ = [] := by
  rw [UploadStream.frames]
  simp

theorem frames_none_cons (d : List Nat) (h : d ≠ []) :
    UploadStream.frames ⟨none, d⟩ =
      UploadFrame.dataFrame (d.take UPLOAD_CHUNK_SIZE) ::
        UploadStream.frames ⟨none, d.drop UPLOAD_CHUNK_SIZE⟩ := by
  rw [UploadStream.frames]
  simp [h]

theorem frames_some (m : SstMeta) (d : List Nat) :
    UploadStream.frames ⟨some m, d⟩ =
      UploadFrame.metaFrame m :: UploadStream.frames ⟨none, d⟩ := by
  rw [UploadStream.frames]

/-- `UploadStream.frames` is exactly the sequence obtained by iterating the
source's `Iterator::next` until it returns `None`. -/
theorem frames_eq_next (s : UploadStream) :
    s.frames = (match s.next with
      | none => []
      | some (f, s') => f :: s'.frames) := by
  obtain ⟨meta, data⟩ := s
  cases meta with
  | some m =>
    rw [frames_some]
    rfl
  | none =>
    by_cases h : data = []
    · subst h
      rw [frames_nil]
      rfl
    · rw [frames_none_cons data h]
      have hbuf : (data.take UPLOAD_CHUNK_SIZE).isEmpty = false := by
        rw [List.isEmpty_eq_false]
        simp [List.take_eq_nil_iff, h, UPLOAD_CHUNK_SIZE]
      simp [UploadStream.next, hbuf]

theorem frames_none_eq_chunks_aux :
    ∀ (n : Nat) (d : List Nat), d.length ≤ n →
      UploadStream.frames ⟨none, d⟩ = (chunksOf d).map UploadFrame.dataFrame := by
  intro n
  induction n with
  | zero =>
    intro d hd
    have hnil : d = [] := List.length_eq_zero.mp (Nat.le_zero.mp hd)
    subst hnil
    rw [frames_nil, chunksOf_nil]
    rfl
  | succ n ih =>
    intro d hd
    by_cases h : d = []
    · subst h
      rw [frames_nil, chunksOf_nil]
      rfl
    · rw [frames_none_cons d h, chunksOf_cons d h, List.map_cons]
      congr 1
      apply ih
      have h0 : d.length ≠ 0 := fun hc => h (List.length_eq_zero.mp hc)
      simp only [List.length_drop, UPLOAD_CHUNK_SIZE]
      omega

theorem frames_none_eq_chunks (d : List Nat) :
    UploadStream.frames ⟨none, d⟩ = (chunksOf d).map UploadFrame.dataFrame :=
  frames_none_eq_chunks_aux d.length d le_rfl

theorem chunksOf_props_aux :
    ∀ (n : Nat) (d : List Nat), d.length ≤ n →
      (chunksOf d).flatten = d ∧
        (∀ c ∈ (chunksOf d).dropLast, c.length = UPLOAD_CHUNK_SIZE) ∧
        ∀ c ∈ chunksOf d, c ≠ [] := by
  intro n
  induction n with
  | zero =>
    intro d hd
    have hnil : d = [] := List.length_eq_zero.mp (Nat.le_zero.mp hd)
    subst hnil
    rw [chunksOf_nil]
    exact ⟨rfl, by simp, by simp⟩
  | succ n ih =>
    intro d hd
    by_cases h : d = []
    · subst h
      rw [chunksOf_nil]
      exact ⟨rfl, by simp, by simp⟩
    · have h0 : d.length ≠ 0 := fun hc => h (List.length_eq_zero.mp hc)
      have hdl : (d.drop UPLOAD_CHUNK_SIZE).length ≤ n := by
        simp only [List.length_drop, UPLOAD_CHUNK_SIZE]
        omega
      obtain ⟨hjoin, hlen, hne⟩ := ih (d.drop UPLOAD_CHUNK_SIZE) hdl
      rw [chunksOf_cons d h]
      refine ⟨?_, ?_, ?_⟩
      · show d.take UPLOAD_CHUNK_SIZE ++ (chunksOf (d.drop UPLOAD_CHUNK_SIZE)).flatten = d
        rw [hjoin]
        exact List.take_append_drop _ _
      · intro c hc
        by_cases hdrop : d.drop UPLOAD_CHUNK_SIZE = []
        · rw [hdrop, chunksOf_nil] at hc
          simp at hc
        · have hchne : chunksOf (d.drop UPLOAD_CHUNK_SIZE) ≠ [] := by
            rw [chunksOf_cons _ hdrop]
            simp
          rw [List.dropLast_cons_of_ne_nil hchne] at hc
          rcases List.mem_cons.mp hc with rfl | hc'
          · have hlt : ¬ d.length ≤ UPLOAD_CHUNK_SIZE :=
              fun hle => hdrop (List.drop_eq_nil_of_le hle)
            simp only [List.length_take]
            omega
          · exact hlen c hc'
      · intro c hc
        rcases List.mem_cons.mp hc with rfl | hc'
        · simp [List.take_eq_nil_iff, h, UPLOAD_CHUNK_SIZE]
        · exact hne c hc'

/-- Claim C7: iterating `UploadStream::new(m, D)` yields first exactly one
frame carrying the metadata `m`, then the data frames: the successive
`UPLOAD_CHUNK_SIZE` (1 MiB) chunks of `D`, each non-empty, each of exactly
1 MiB except possibly the last, whose concatenation is `D`; an empty source
yields only the meta frame. -/
theorem upload_stream_frames_spec (m : SstMeta) (D : List Nat) :
    UploadStream.frames ⟨some m, D⟩ =
        UploadFrame.metaFrame m :: (chunksOf D).map UploadFrame.dataFrame ∧
      (chunksOf D).flatten = D ∧
      (∀ c ∈ (chunksOf D).dropLast, c.length = UPLOAD_CHUNK_SIZE) ∧
      (∀ c ∈ chunksOf D, c ≠ []) ∧
      (D = [] → UploadStream.frames ⟨some m, D⟩ = [UploadFrame.metaFrame m]) := by
  obtain ⟨hjoin, hlen, hne⟩ := chunksOf_props_aux D.length D le_rfl
  refine ⟨?_, hjoin, hlen, hne, ?_⟩
  · rw [frames_some, frames_none_eq_chunks]
  · intro h
    subst h
    rw [frames_some, frames_nil]

/-- Claim C7 witness: the empty-source clause applied at a concrete
metadata value. -/
theorem upload_stream_frames_spec_witness :
    UploadStream.frames ⟨some ⟨[], ⟨[], []⟩, 0, 0, "default", 1, (1, 1)⟩, []⟩ =
      [UploadFrame.metaFrame ⟨[], ⟨[], []⟩, 0, 0, "default", 1, (1, 1)⟩] :=
  (upload_stream_frames_spec ⟨[], ⟨[], []⟩, 0, 0, "default", 1, (1, 1)⟩ []).2.2.2.2 rfl

/-- Claim C6, counterexample to the claim as stated: an `EngineInUse` failure
is not reflected into the response's typed error field — the service
concludes the RPC with a transport-level failure. -/
theorem kv_service_engine_in_use_claim_cex :
    handle_engine_result (Except.error (Error.EngineInUse 7)) =
        RpcOutcome.transport (Error.EngineInUse 7) ∧
      (handle_engine_result (Except.error (Error.EngineInUse 7))).isSuccess = false :=
  ⟨rfl, rfl⟩

/-- Claim C6 as amended: only in the handlers that use `try_engine!`
(`write_engine`, `write_engine_v3`, `close_engine`) is `EngineNotFound`
reflected into the response's typed error field (a success response naming
the engine); every other error of those handlers — `EngineInUse` included —
propagates as a transport-level failure, and in the `import_engine` and
`cleanup_engine` handlers every error, `EngineNotFound` included, propagates
as a transport-level failure.  A successful operation yields a response with
no error field in either handler shape. -/
theorem kv_service_error_reflection (res : Except Error Unit) :
    (∀ v, res = Except.error (Error.EngineNotFound v) →
        handle_engine_result res = RpcOutcome.success (some v) ∧
          handle_plain_result res = RpcOutcome.transport (Error.EngineNotFound v)) ∧
      (∀ e, res = Except.error e → (∀ v, e ≠ Error.EngineNotFound v) →
        handle_engine_result res = RpcOutcome.transport e ∧
          handle_plain_result res = RpcOutcome.transport e) ∧
      (res = Except.ok () →
        handle_engine_result res = RpcOutcome.success none ∧
          handle_plain_result res = RpcOutcome.success none) := by
  refine ⟨?_, ?_, ?_⟩
  · intro v h
    subst h
    exact ⟨rfl, rfl⟩
  · intro e h hne
    subst h
    refine ⟨?_, rfl⟩
    cases e <;> first
      | rfl
      | exact absurd rfl (hne _)
  · intro h
    subst h
    exact ⟨rfl, rfl⟩

/-- Claim C6 witness: the amended theorem applied to a concrete
`EngineNotFound` result (typed response field in a `try_engine!` handler,
transport failure in `import_engine`/`cleanup_engine`) and a concrete
`EngineInUse` result (transport failure in both handler shapes). -/
theorem kv_service_error_reflection_witness :
    (handle_engine_result (Except.error (Error.EngineNotFound 5)) =
        RpcOutcome.success (some 5) ∧
      handle_plain_result (Except.error (Error.EngineNotFound 5)) =
        RpcOutcome.transport (Error.EngineNotFound 5)) ∧
      handle_engine_result (Except.error (Error.EngineInUse 3)) =
        RpcOutcome.transport (Error.EngineInUse 3) ∧
      handle_plain_result (Except.error (Error.EngineInUse 3)) =
        RpcOutcome.transport (Error.EngineInUse 3) :=
  ⟨(kv_service_error_reflection _).1 5 rfl,
   (kv_service_error_reflection _).2.1 _ rfl fun v h => Error.noConfusion h⟩

end Importer
